import Mathlib

/-!
Verification of the samp-sdk AMX memory-marshalling and call-dispatch layer.

The definitions below are a shallow embedding of the Rust sources:
  * `src/src/amx.rs`    — the `AMX` wrapper (address validation, exec, strings,
    push_array / push_string, `AmxError` and its `From<i32>` mapping);
  * `src/sdk/src/amx.rs` and `src/sdk/src/arguments.rs` — the newer `Amx`
    wrapper and the `AmxValueDecode` argument-decoding trait;
  * `src/codegen/src/natives.rs` — the `#[contains_natives]` generated
    guest-callable entry points;
  * `src/src/macros.rs` — the `define_native!` / `expand_args!` generated
    entry points.

Guest cells are modelled as `Int` (the VM's 32-bit cell, with explicit
`emod 2^32` / `emod 256` casts where the Rust code casts), guest memory as a
total function from cell index (or byte address) to cell value, and fallible
operations as `Except AmxError`.  External AMX exports that the repository
only declares (allot, push, release, strlen, the raise-error export) are
modelled from the spec where noted.
-/

namespace SampSdk

/-- The `AmxError` enumeration from `src/src/amx.rs` (lines 730-785).
Variant order and discriminants follow the Rust source: `Exit = 1` through
`InvalidState = 13`, `Memory = 16` through `General = 27`, and the
payload-free catch-all `Unknown` (implicit discriminant 28). -/
inductive AmxError where
  | Exit
  | Assert
  | StackError
  | Bounds
  | MemoryAccess
  | InvalidInstruction
  | StackLow
  | HeapLow
  | Callback
  | Native
  | Divide
  | Sleep
  | InvalidState
  | Memory
  | Format
  | Version
  | NotFound
  | Index
  | Debug
  | Init
  | UserData
  | InitJit
  | Params
  | Domain
  | General
  | Unknown
deriving DecidableEq, Repr

/-- The integer discriminant of each `AmxError` variant (the value produced by
`error as i32` in `AMX::raise_error`). -/
def AmxError.code : AmxError → Int
  | .Exit => 1
  | .Assert => 2
  | .StackError => 3
  | .Bounds => 4
  | .MemoryAccess => 5
  | .InvalidInstruction => 6
  | .StackLow => 7
  | .HeapLow => 8
  | .Callback => 9
  | .Native => 10
  | .Divide => 11
  | .Sleep => 12
  | .InvalidState => 13
  | .Memory => 16
  | .Format => 17
  | .Version => 18
  | .NotFound => 19
  | .Index => 20
  | .Debug => 21
  | .Init => 22
  | .UserData => 23
  | .InitJit => 24
  | .Params => 25
  | .Domain => 26
  | .General => 27
  | .Unknown => 28

/-- `impl From<i32> for AmxError` from `src/src/amx.rs` (lines 787-818):
codes 1-13 and 16-27 map to their named variant, everything else to the
payload-free `Unknown`. -/
def amxErrorFromI32 (val : Int) : AmxError :=
  if val = 1 then AmxError.Exit
  else if val = 2 then AmxError.Assert
  else if val = 3 then AmxError.StackError
  else if val = 4 then AmxError.Bounds
  else if val = 5 then AmxError.MemoryAccess
  else if val = 6 then AmxError.InvalidInstruction
  else if val = 7 then AmxError.StackLow
  else if val = 8 then AmxError.HeapLow
  else if val = 9 then AmxError.Callback
  else if val = 10 then AmxError.Native
  else if val = 11 then AmxError.Divide
  else if val = 12 then AmxError.Sleep
  else if val = 13 then AmxError.InvalidState
  else if val = 16 then AmxError.Memory
  else if val = 17 then AmxError.Format
  else if val = 18 then AmxError.Version
  else if val = 19 then AmxError.NotFound
  else if val = 20 then AmxError.Index
  else if val = 21 then AmxError.Debug
  else if val = 22 then AmxError.Init
  else if val = 23 then AmxError.UserData
  else if val = 24 then AmxError.InitJit
  else if val = 25 then AmxError.Params
  else if val = 26 then AmxError.Domain
  else if val = 27 then AmxError.General
  else AmxError.Unknown

/-- The relevant fields of the raw AMX structure as used by
`AMX::get_address` in `src/src/amx.rs` (lines 210-226): the module base
pointer, the header's data-section offset `dat`, the optional explicit data
pointer, and the guest-maintained heap boundary `hea`, stack pointer `stk`
and stack top `stp` (all 32-bit cells, hence `Int`). -/
structure AmxState where
  base : Int
  dat : Int
  dataPtr : Option Int
  hea : Int
  stk : Int
  stp : Int
deriving DecidableEq, Repr

/-- The data-section base computed at the start of `AMX::get_address`
(lines 214-218): the explicit data pointer when non-null, otherwise
`base + header.dat`. -/
def dataSection (s : AmxState) : Int :=
  match s.dataPtr with
  | none => s.base + s.dat
  | some d => d

/-- `AMX::get_address` from `src/src/amx.rs` (lines 210-226): the address is
rejected with `AmxError::MemoryAccess` when
`address >= hea && address < stk || address < 0 || address >= stp`, and
otherwise resolved to `data + address`. -/
def get_address (s : AmxState) (address : Int) : Except AmxError Int :=
  if (address ≥ s.hea ∧ address < s.stk) ∨ address < 0 ∨ address ≥ s.stp then
    Except.error AmxError.MemoryAccess
  else
    Except.ok (dataSection s + address)

/-- `AMX::exec` from `src/src/amx.rs` (lines 325-332): the `Exec` export is
called with a result slot; its status `st` and the result cell `rv` it wrote
determine the outcome via the `ret!` macro — `Ok(rv)` when `st == 0`,
otherwise `Err(AmxError::from(st))`. -/
def amx_exec (st : Int) (rv : Int) : Except AmxError Int :=
  if st = 0 then Except.ok rv else Except.error (amxErrorFromI32 st)

/-- A guest VM state on which claim C1's unconditional "succeeds for
`a == stp - 1`" fails: `hea = 0`, `stk = stp = 1`, so `stp - 1 = 0` lies in
the unallocated gap `[hea, stk)`. -/
def c1state : AmxState := ⟨0, 0, none, 0, 1, 1⟩

/-- Claim C1, counterexample: the claim also asserts that `get_address`
succeeds for `a == stp - 1` in every guest VM state, but in the state with
`hea = 0`, `stk = stp = 1` the address `stp - 1 = 0` falls in `[hea, stk)`
and `get_address` fails with the memory-access error. -/
theorem c1_counterexample :
    get_address c1state (c1state.stp - 1) = Except.error AmxError.MemoryAccess ∧
    c1state.stp - 1 = 0 ∧ c1state.hea ≤ 0 ∧ (0 : Int) < c1state.stk := by
  refine ⟨rfl, by decide, by decide, by decide⟩

/-- Claim C1 (amended): `get_address` fails with the memory-access error
exactly when `hea ≤ a < stk`, or `a ≥ stp`, or `a < 0`; it succeeds for
`a == stp - 1` whenever `0 < stp` and `stk < stp` (when `stk = stp` or
`stp ≤ 0` the address `stp - 1` itself falls in the failing set). -/
theorem c1_resolve_window_amended (s : AmxState) (a : Int) :
    (get_address s a = Except.error AmxError.MemoryAccess ↔
      ((s.hea ≤ a ∧ a < s.stk) ∨ a ≥ s.stp ∨ a < 0)) ∧
    (0 < s.stp → s.stk < s.stp →
      get_address s (s.stp - 1) = Except.ok (dataSection s + (s.stp - 1))) := by
  constructor
  · constructor
    · intro h
      unfold get_address at h
      by_cases hc : (a ≥ s.hea ∧ a < s.stk) ∨ a < 0 ∨ a ≥ s.stp
      · omega
      · rw [if_neg hc] at h
        exact Except.noConfusion h
    · intro h
      unfold get_address
      rw [if_pos (by omega)]
  · intro h1 h2
    unfold get_address
    rw [if_neg (by omega)]

/-- A guest VM state with a proper gap (`stk < stp`) used to witness the
amended claim C1. -/
def c1wits : AmxState := ⟨0, 0, none, 0, 5, 10⟩

/-- Witness for the amended claim C1 at `hea = 0`, `stk = 5`, `stp = 10`:
address `stp - 1 = 9` resolves successfully. -/
theorem c1_resolve_window_witness :
    get_address c1wits (c1wits.stp - 1) =
      Except.ok (dataSection c1wits + (c1wits.stp - 1)) :=
  (c1_resolve_window_amended c1wits 0).2 (by decide) (by decide)

/-- Claim C2, counterexample: the claim asserts that every status code
outside `{1..13, 16..27}` maps to the catch-all variant "carrying that exact
integer", but `AmxError::Unknown` is payload-free: the codes 100 and 200 map
to the very same value, so the raw integer is not retained. -/
theorem c2_counterexample :
    amxErrorFromI32 100 = AmxError.Unknown ∧
    amxErrorFromI32 200 = AmxError.Unknown ∧
    amxErrorFromI32 100 = amxErrorFromI32 200 ∧ (100 : Int) ≠ 200 := by
  refine ⟨by decide, by decide, by decide, by decide⟩

/-- Claim C2 (amended): `exec` returns `Ok` carrying the result cell exactly
when the exec export's status is 0; status 4 maps to `Bounds`, 8 to
`HeapLow`, 25 to `Params`, and every code outside `{1..13, 16..27}` maps to
the payload-free catch-all variant `Unknown` (the raw integer is not
retained), never panicking — the mapping is a total function. -/
theorem c2_fault_mapping_amended :
    (∀ st rv : Int, amx_exec st rv = Except.ok rv ↔ st = 0) ∧
    amxErrorFromI32 4 = AmxError.Bounds ∧
    amxErrorFromI32 8 = AmxError.HeapLow ∧
    amxErrorFromI32 25 = AmxError.Params ∧
    (∀ code : Int, ¬ (1 ≤ code ∧ code ≤ 13) → ¬ (16 ≤ code ∧ code ≤ 27) →
      amxErrorFromI32 code = AmxError.Unknown) := by
  refine ⟨?_, by decide, by decide, by decide, ?_⟩
  · intro st rv
    constructor
    · intro h
      by_contra hs
      unfold amx_exec at h
      rw [if_neg hs] at h
      exact Except.noConfusion h
    · intro h
      unfold amx_exec
      rw [if_pos h]
  · intro code h1 h2
    unfold amxErrorFromI32
    repeat rw [if_neg (by omega)]

/-- Witness for the amended claim C2: status 0 with result cell 500 yields
`Ok 500`, and the out-of-range code 100 maps to `Unknown`. -/
theorem c2_fault_mapping_witness :
    amx_exec 0 500 = Except.ok 500 ∧ amxErrorFromI32 100 = AmxError.Unknown :=
  ⟨(c2_fault_mapping_amended.1 0 500).mpr rfl,
   c2_fault_mapping_amended.2.2.2.2 100 (by decide) (by decide)⟩

/-- The unsigned value of the first cell of a guest string, as computed by
`read(address) as u32` in `AMX::get_cstring_of_length`
(`src/src/amx.rs:576`); the 32-bit cast of the i32 cell is `emod 2^32`. -/
def firstCellUnsigned (mem : Nat → Int) : Int := (mem 0).emod 4294967296

/-- One character of a packed guest string: `(cell >> (i * CHARBITS)) as u8`
(`src/src/amx.rs:590`) — an arithmetic shift of the i32 cell (floor division
by `2^(i*8)`) followed by truncation to the low byte. -/
def packedShiftByte (cell : Int) (i : Nat) : Int :=
  (cell.fdiv (2 ^ (i * 8))).emod 256

/-- The packed branch of `AMX::get_cstring_of_length`
(`src/src/amx.rs:577-599`): while fewer than `size` characters were emitted,
load the next cell whenever the byte cursor `i` is back at the
most-significant byte (3), extract the byte at position `i`, stop at a zero
byte, and step `i` through 3, 2, 1, 0. Arguments after `mem`: remaining
character budget, byte cursor `i`, current cell, next cell offset. -/
def getPackedBytes (mem : Nat → Int) : Nat → Nat → Int → Nat → List Int
  | 0, _, _, _ => []
  | rem + 1, i, cell, offset =>
    let cell' := if i = 3 then mem offset else cell
    let offset' := if i = 3 then offset + 1 else offset
    let ch := packedShiftByte cell' i
    if ch = 0 then []
    else ch :: getPackedBytes mem rem ((i + 3) % 4) cell' offset'

/-- The unpacked branch of `AMX::get_cstring_of_length`
(`src/src/amx.rs:600-609`): while the current cell is non-zero and fewer
than `size` characters were emitted, push the cell's low byte
(`byte as u8`) and advance. Arguments after `mem`: remaining budget, cell
index. -/
def getUnpackedBytes (mem : Nat → Int) : Nat → Nat → List Int
  | 0, _ => []
  | rem + 1, idx =>
    let byte := mem idx
    if byte = 0 then []
    else byte.emod 256 :: getUnpackedBytes mem rem (idx + 1)

/-- `AMX::get_cstring_of_length` from `src/src/amx.rs` (lines 570-613), and
identically `Amx::get_string`'s byte-extraction loop in
`src/sdk/src/amx.rs` (lines 163-207): guest memory is read as cells starting
at the given address (modelled as `mem : Nat → Int`, cell index relative to
the address); if the first cell's unsigned value exceeds
`UNPACKEDMAX = 2^24 - 1` the string is decoded as packed, otherwise as
unpacked. The result is the byte sequence before the trailing NUL that
`CString::from_vec_unchecked` appends. -/
def get_cstring_of_length (mem : Nat → Int) (size : Nat) : List Int :=
  if firstCellUnsigned mem > 16777215 then getPackedBytes mem size 3 0 0
  else getUnpackedBytes mem size 0

/-- The single-cell guest array `[0x68656C6C]` of claim C5 (cells beyond the
array read as zero). -/
def hellPackedMem : Nat → Int := fun i => if i = 0 then 1751477356 else 0

/-- The guest cell array `[0x68, 0x65, 0x6C, 0x6C, 0x00]` of claim C5. -/
def hellUnpackedMem : Nat → Int := fun i =>
  if i = 0 then 104
  else if i = 1 then 101
  else if i = 2 then 108
  else if i = 3 then 108
  else 0

/-- Claim C5: string decoding classifies by the first cell's unsigned value
— strictly greater than `2^24 - 1` selects the packed branch (four 8-bit
characters per cell, most-significant byte first), otherwise the unpacked
branch (low byte of each cell); the single-cell array `[0x68656C6C]`
decodes as packed to "hell" (`[104, 101, 108, 108]`) and
`[0x68, 0x65, 0x6C, 0x6C, 0x00]` decodes as unpacked to "hell". -/
theorem c5_string_discrimination :
    (∀ (mem : Nat → Int) (size : Nat), firstCellUnsigned mem > 16777215 →
      get_cstring_of_length mem size = getPackedBytes mem size 3 0 0) ∧
    (∀ (mem : Nat → Int) (size : Nat), firstCellUnsigned mem ≤ 16777215 →
      get_cstring_of_length mem size = getUnpackedBytes mem size 0) ∧
    firstCellUnsigned hellPackedMem > 16777215 ∧
    get_cstring_of_length hellPackedMem 4 = [104, 101, 108, 108] ∧
    firstCellUnsigned hellUnpackedMem ≤ 16777215 ∧
    get_cstring_of_length hellUnpackedMem 5 = [104, 101, 108, 108] := by
  refine ⟨?_, ?_, by decide, by decide, by decide, by decide⟩
  · intro mem size h
    unfold get_cstring_of_length
    rw [if_pos h]
  · intro mem size h
    unfold get_cstring_of_length
    rw [if_neg (by omega)]

/-- Witness for claim C5: the packed classification rule applied to the
concrete packed "hell" array. -/
theorem c5_string_discrimination_witness :
    get_cstring_of_length hellPackedMem 4 = getPackedBytes hellPackedMem 4 3 0 0 :=
  c5_string_discrimination.1 hellPackedMem 4 (by decide)

/-- The length of the packed decode never exceeds the character budget. -/
theorem getPackedBytes_length_le (mem : Nat → Int) :
    ∀ (rem i : Nat) (cell : Int) (offset : Nat),
      (getPackedBytes mem rem i cell offset).length ≤ rem := by
  intro rem
  induction rem with
  | zero => intro i cell offset; simp [getPackedBytes]
  | succ r ih =>
    intro i cell offset
    unfold getPackedBytes
    dsimp only
    generalize (if i = 3 then mem offset else cell) = c
    generalize (if i = 3 then offset + 1 else offset) = o
    split
    · simp
    · simpa using ih ((i + 3) % 4) c o

/-- The packed decode never emits a zero byte: a zero character stops the
loop before it is pushed. -/
theorem getPackedBytes_no_zero (mem : Nat → Int) :
    ∀ (rem i : Nat) (cell : Int) (offset : Nat),
      (0 : Int) ∉ getPackedBytes mem rem i cell offset := by
  intro rem
  induction rem with
  | zero => intro i cell offset; simp [getPackedBytes]
  | succ r ih =>
    intro i cell offset
    unfold getPackedBytes
    dsimp only
    generalize (if i = 3 then mem offset else cell) = c
    generalize (if i = 3 then offset + 1 else offset) = o
    split
    · simp
    · rename_i hch
      intro hmem
      rcases List.mem_cons.mp hmem with h0 | h0
      · exact hch h0.symm
      · exact ih ((i + 3) % 4) c o h0

/-- The length of the unpacked decode never exceeds the character budget. -/
theorem getUnpackedBytes_length_le (mem : Nat → Int) :
    ∀ (rem idx : Nat), (getUnpackedBytes mem rem idx).length ≤ rem := by
  intro rem
  induction rem with
  | zero => intro idx; simp [getUnpackedBytes]
  | succ r ih =>
    intro idx
    unfold getUnpackedBytes
    dsimp only
    split
    · simp
    · simpa using ih (idx + 1)

/-- Every position the unpacked decode consumed holds a non-zero cell: the
loop stops at the first zero cell. -/
theorem getUnpackedBytes_nonzero_cells (mem : Nat → Int) :
    ∀ (rem idx j : Nat), j < (getUnpackedBytes mem rem idx).length →
      mem (idx + j) ≠ 0 := by
  intro rem
  induction rem with
  | zero => intro idx j hj; simp [getUnpackedBytes] at hj
  | succ r ih =>
    intro idx j hj
    unfold getUnpackedBytes at hj
    dsimp only at hj
    split at hj
    · simp at hj
    · rename_i hbyte
      cases j with
      | zero => simpa using hbyte
      | succ k =>
        have := ih (idx + 1) k (by simpa using hj)
        simpa [Nat.add_assoc, Nat.add_comm 1 k] using this

/-- A guest cell array starting with the cell 256: classified as unpacked
(256 ≤ 2^24 - 1), its first cell is non-zero yet has a zero low byte. -/
def c6mem : Nat → Int := fun i => if i = 0 then 256 else 0

/-- Claim C6, counterexample: the claim asserts the decoded byte sequence
"contains no zero byte", but the unpacked branch stops at the first zero
*cell* while storing each cell's low byte: the array `[256, 0]` decodes to
`[0]`, which contains a zero byte. -/
theorem c6_counterexample :
    get_cstring_of_length c6mem 5 = [0] ∧
    (0 : Int) ∈ get_cstring_of_length c6mem 5 := by
  refine ⟨by decide, by decide⟩

/-- Claim C6 (amended): the decoded byte sequence stops at the first zero
character (packed) or the first zero cell (unpacked) or after `max_length`
characters; its length never exceeds `max_length` in both branches, and the
packed branch contains no zero byte — but the unpacked branch stores each
cell's low byte, so a non-zero cell whose low byte is zero produces a zero
byte in the output. -/
theorem c6_decode_bounds_amended (mem : Nat → Int) (size : Nat) :
    (get_cstring_of_length mem size).length ≤ size ∧
    (firstCellUnsigned mem > 16777215 →
      (0 : Int) ∉ get_cstring_of_length mem size) ∧
    (firstCellUnsigned mem ≤ 16777215 →
      ∀ j, j < (get_cstring_of_length mem size).length → mem j ≠ 0) := by
  refine ⟨?_, ?_, ?_⟩
  · unfold get_cstring_of_length
    split
    · exact getPackedBytes_length_le mem size 3 0 0
    · exact getUnpackedBytes_length_le mem size 0
  · intro h
    unfold get_cstring_of_length
    rw [if_pos h]
    exact getPackedBytes_no_zero mem size 3 0 0
  · intro h j hj
    unfold get_cstring_of_length at hj
    rw [if_neg (by omega)] at hj
    have := getUnpackedBytes_nonzero_cells mem size 0 j hj
    simpa using this

/-- Witness for the amended claim C6: the packed "hell" array decodes with
no zero byte. -/
theorem c6_decode_bounds_witness :
    (0 : Int) ∉ get_cstring_of_length hellPackedMem 4 :=
  (c6_decode_bounds_amended hellPackedMem 4).2.1 (by decide)

/-- A single-cell store into guest memory viewed as cell-indexed. -/
def writeCell (mem : Nat → Int) (idx : Nat) (v : Int) : Nat → Int :=
  fun j => if j = idx then v else mem j

/-- Sequential byte-to-cell stores: the loop
`for (position, byte) in bytes.iter().enumerate().take(allowed_length)` of
`AMX::set_cstr_of_size` (`src/src/amx.rs:700-702`), writing each byte into
the cell at its position, starting at `start`. -/
def writeBytes : (Nat → Int) → List Int → Nat → (Nat → Int)
  | mem, [], _ => mem
  | mem, b :: rest, start => writeBytes (writeCell mem start b) rest (start + 1)

/-- `AMX::set_cstr_of_size` from `src/src/amx.rs` (lines 695-705): write the
first `allowed_length` bytes of the string into consecutive cells (one byte
per cell, widened by `i32::from`), then write a zero cell at index
`min(allowed_length, bytes.len())`. The destination is modelled as
cell-indexed memory with the destination pointer at index 0. -/
def set_cstr_of_size (bytes : List Int) (allowed : Nat) (mem : Nat → Int) :
    Nat → Int :=
  writeCell (writeBytes mem (bytes.take allowed) 0) (min allowed bytes.length) 0

/-- Pointwise evaluation of `writeCell`. -/
theorem writeCell_eval (mem : Nat → Int) (idx : Nat) (v : Int) (j : Nat) :
    writeCell mem idx v j = if j = idx then v else mem j := rfl

/-- Pointwise evaluation of `writeBytes`: cell `j` holds the byte at
position `j - start` when `j` lies in the written window, and is untouched
otherwise. -/
theorem writeBytes_eval (l : List Int) :
    ∀ (mem : Nat → Int) (start j : Nat),
      writeBytes mem l start j =
        if start ≤ j ∧ j < start + l.length then l.getD (j - start) 0
        else mem j := by
  induction l with
  | nil =>
    intro mem start j
    simp only [writeBytes, List.length_nil, Nat.add_zero]
    rw [if_neg (by omega)]
  | cons b rest ih =>
    intro mem start j
    show writeBytes (writeCell mem start b) rest (start + 1) j = _
    rw [ih]
    by_cases hj : j = start
    · subst hj
      rw [if_neg (by omega), if_pos (by simp only [List.length_cons]; omega)]
      simp [writeCell]
    · by_cases hr : start + 1 ≤ j ∧ j < start + 1 + rest.length
      · rw [if_pos hr, if_pos (by simp only [List.length_cons]; omega)]
        have hsub : j - start = (j - (start + 1)) + 1 := by omega
        rw [hsub, List.getD_cons_succ]
      · rw [if_neg hr, if_neg (by simp only [List.length_cons]; omega)]
        simp [writeCell, hj]

/-- `getD` commutes with `take` inside the taken window. -/
theorem take_getD (l : List Int) :
    ∀ (n i : Nat), i < n → (l.take n).getD i 0 = l.getD i 0 := by
  induction l with
  | nil => intro n i h; simp
  | cons b rest ih =>
    intro n i h
    cases n with
    | zero => omega
    | succ m =>
      cases i with
      | zero => simp
      | succ k =>
        simp only [List.take_succ_cons, List.getD_cons_succ]
        exact ih m k (by omega)

/-- Claim C9: `set_cstr_of_size` writes the first `min(n, len(s))` bytes of
the string into consecutive destination cells, writes a zero cell at index
`min(n, len(s))` — one cell past the allowed length when the string is
truncated — and modifies no cell at any higher index, so the destination
always holds a NUL-terminated unpacked string. -/
theorem c9_set_cstr_contract (bytes : List Int) (allowed : Nat)
    (mem : Nat → Int) :
    (∀ i, i < min allowed bytes.length →
      set_cstr_of_size bytes allowed mem i = bytes.getD i 0) ∧
    set_cstr_of_size bytes allowed mem (min allowed bytes.length) = 0 ∧
    (∀ i, min allowed bytes.length < i →
      set_cstr_of_size bytes allowed mem i = mem i) := by
  refine ⟨?_, ?_, ?_⟩
  · intro i hi
    unfold set_cstr_of_size
    rw [writeCell_eval, if_neg (by omega), writeBytes_eval,
      if_pos (by simp only [List.length_take]; omega)]
    simpa using take_getD bytes allowed i (by omega)
  · unfold set_cstr_of_size
    rw [writeCell_eval, if_pos rfl]
  · intro i hi
    unfold set_cstr_of_size
    rw [writeCell_eval, if_neg (by omega), writeBytes_eval,
      if_neg (by simp only [List.length_take]; omega)]

/-- Witness for claim C9 at the concrete string `[104, 105]` with allowed
length 5: byte 0 is copied, the NUL lands at index `min 5 2 = 2`, and cell 3
keeps its previous value. -/
theorem c9_set_cstr_witness :
    set_cstr_of_size [104, 105] 5 (fun _ => 7) 0 = 104 ∧
    set_cstr_of_size [104, 105] 5 (fun _ => 7) 2 = 0 ∧
    set_cstr_of_size [104, 105] 5 (fun _ => 7) 3 = 7 := by
  have h := c9_set_cstr_contract [104, 105] 5 (fun _ => 7)
  refine ⟨?_, ?_, ?_⟩
  · simpa using h.1 0 (by decide)
  · simpa using h.2.1
  · simpa using h.2.2 3 (by decide)

/-- The guest VM state touched by host-initiated pushes: the heap pointer
`hea` (a byte address into the data section), the guest stack as pushed by
the `Push` export, and the data-section cells (`guestMem`, indexed by byte
address). -/
structure GuestVM where
  hea : Int
  stack : List Int
  guestMem : Int → Int

/-- The status code the external `Push` export returns; the exports are
opaque function pointers outside this repository. -/
structure PushEnv where
  pushStatus : Int
deriving DecidableEq, Repr

/-- Modelled from the spec: the allocator export (`Allot`, declared in
`src/sdk/src/types.rs` but implemented by the external AMX runtime)
"allocates guest heap cells" — it returns the current heap pointer both as
the AMX-relative address and as the physical write target, and advances the
heap pointer by `4 * cells` bytes (one 32-bit cell each). -/
def allotModel (vm : GuestVM) (cells : Nat) : (Int × Int) × GuestVM :=
  ((vm.hea, vm.hea), { vm with hea := vm.hea + 4 * cells })

/-- Modelled from the spec: the `Push` export pushes one cell onto the guest
stack and returns a status code; per the `ret!` macro of `src/src/amx.rs` a
non-zero status becomes `AmxError::from(status)`. -/
def pushModel (env : PushEnv) (vm : GuestVM) (v : Int) : Except AmxError GuestVM :=
  if env.pushStatus = 0 then Except.ok { vm with stack := v :: vm.stack }
  else Except.error (amxErrorFromI32 env.pushStatus)

/-- Modelled from the spec: the release-above-address export (`Release`,
documented in `src/src/amx.rs:137` as "Frees all memory **above** input
address") resets the heap pointer to the given address. -/
def releaseModel (vm : GuestVM) (address : Int) : GuestVM :=
  { vm with hea := address }

/-- Sequential cell stores at consecutive cell (4-byte) steps from a
physical address, as performed by the write loops of `AMX::push_array` and
`AMX::push_string`. -/
def writeCellsInt : (Int → Int) → Int → List Int → (Int → Int)
  | mem, _, [] => mem
  | mem, p, v :: rest =>
    writeCellsInt (fun a => if a = p then v else mem a) (p + 4) rest

/-- The outcome of a host-initiated push operation: a returned AMX address
with the new VM state, a returned error with the VM state at that point, or
a Rust panic (which never returns to the caller). -/
inductive PushOutcome where
  | ok (addr : Int) (vm : GuestVM)
  | err (e : AmxError) (vm : GuestVM)
  | panicked (vm : GuestVM)

/-- Whether a `PushOutcome` is a returned error value. -/
def pushOutcomeIsErr : PushOutcome → Bool
  | PushOutcome.err _ _ => true
  | _ => false

/-- The VM state carried by a `PushOutcome`. -/
def pushOutcomeVM : PushOutcome → GuestVM
  | PushOutcome.ok _ vm => vm
  | PushOutcome.err _ vm => vm
  | PushOutcome.panicked vm => vm

/-- `AMX::push_array` from `src/src/amx.rs` (lines 271-283): allot
`array.len()` cells, copy the elements into the allotted cells, then push
the AMX-relative address; the address is returned on success. The `?` on
`push` returns the error with nothing released. -/
def push_array (env : PushEnv) (vm : GuestVM) (array : List Int) : PushOutcome :=
  let r := allotModel vm array.length
  let vm2 := { r.2 with guestMem := writeCellsInt r.2.guestMem r.1.2 array }
  match pushModel env vm2 r.1.1 with
  | Except.ok vm3 => PushOutcome.ok r.1.1 vm3
  | Except.error e => PushOutcome.err e vm2

/-- `AMX::push_string` from `src/src/amx.rs` (lines 288-305): with
`packed = true` the body is `unimplemented!()` — a panic; otherwise the
NUL-terminated bytes are allotted, copied one byte per cell, and the address
is pushed. `bytes` are the `CStr` bytes without the trailing NUL. -/
def push_string (env : PushEnv) (vm : GuestVM) (bytes : List Int)
    (packed : Bool) : PushOutcome :=
  if packed then
    PushOutcome.panicked vm
  else
    let withNul := bytes ++ [0]
    let r := allotModel vm withNul.length
    let vm2 := { r.2 with guestMem := writeCellsInt r.2.guestMem r.1.2 withNul }
    match pushModel env vm2 r.1.1 with
    | Except.ok vm3 => PushOutcome.ok r.1.1 vm3
    | Except.error e => PushOutcome.err e vm2

/-- A concrete guest VM used for the push counterexamples and witnesses. -/
def c7vm : GuestVM := ⟨100, [], fun _ => 0⟩

/-- A push environment whose `Push` export succeeds. -/
def c7env : PushEnv := ⟨0⟩

/-- Claim C7, counterexample: the claim asserts `push_string` with
`packed = true` *returns* a distinct `Unsupported` error condition, but the
code panics via `unimplemented!()`: the outcome is a panic with the VM state
untouched, not a returned error value (the error enumeration has no
`Unsupported` variant at all). -/
theorem c7_counterexample :
    push_string c7env c7vm [104] true = PushOutcome.panicked c7vm ∧
    pushOutcomeIsErr (push_string c7env c7vm [104] true) = false :=
  ⟨rfl, rfl⟩

/-- Claim C7 (amended): for every input string, calling `push_string` with
`packed = true` fails via the distinct `unimplemented!()` panic rather than
silently corrupting memory — it writes no guest memory (the VM state is
returned untouched) — but it panics instead of returning an error
condition. -/
theorem c7_packed_push_amended (env : PushEnv) (vm : GuestVM)
    (bytes : List Int) :
    push_string env vm bytes true = PushOutcome.panicked vm := rfl

/-- A push environment whose `Push` export fails with status 1. -/
def c8envFail : PushEnv := ⟨1⟩

/-- Claim C8, counterexample: the claim asserts every exit path, including
early failure, releases the allotted guest memory so the heap pointer is
restored exactly; but when the `Push` export fails inside `push_array`, the
`?` operator returns the error with the five allotted cells still held: the
heap pointer remains 120, not its pre-push value 100. -/
theorem c8_counterexample :
    pushOutcomeIsErr (push_array c8envFail c7vm [1, 2, 3, 4, 5]) = true ∧
    (pushOutcomeVM (push_array c8envFail c7vm [1, 2, 3, 4, 5])).hea = 120 ∧
    c7vm.hea = 100 ∧ (120 : Int) ≠ 100 :=
  ⟨rfl, rfl, rfl, by decide⟩

/-- Claim C8 (amended): allotted guest memory is released only by an
explicit `release(amx_addr)` call, not by any scoped discipline: on the
success path `push_array` returns the pre-push heap pointer as the address,
and calling the release-above-address export with it afterwards restores
the heap pointer exactly; on the early-failure exit path (the `Push` export
fails) `push_array` returns the error without releasing, leaving the heap
pointer advanced by the allotted amount. -/
theorem c8_release_amended (env : PushEnv) (vm : GuestVM) (array : List Int) :
    (env.pushStatus = 0 →
      ∀ addr vm', push_array env vm array = PushOutcome.ok addr vm' →
        addr = vm.hea ∧ vm'.hea = vm.hea + 4 * array.length ∧
        (releaseModel vm' addr).hea = vm.hea) ∧
    (∀ e vm', push_array env vm array = PushOutcome.err e vm' →
      vm'.hea = vm.hea + 4 * array.length) := by
  constructor
  · intro hst addr vm' h
    simp only [push_array, pushModel, allotModel, hst, if_true, if_pos,
      PushOutcome.ok.injEq] at h
    obtain ⟨haddr, hvm⟩ := h
    subst haddr
    subst hvm
    exact ⟨rfl, rfl, rfl⟩
  · intro e vm' h
    by_cases hst : env.pushStatus = 0
    · simp [push_array, pushModel, allotModel, hst] at h
    · simp only [push_array, pushModel, allotModel, hst, if_false, if_neg,
        PushOutcome.err.injEq] at h
      obtain ⟨_, hvm⟩ := h
      subst hvm
      rfl

/-- Witness for the amended claim C8: pushing a 5-element array with a
succeeding `Push` export and then releasing at the returned address restores
the heap pointer to its pre-push value 100 exactly. -/
theorem c8_release_witness :
    (releaseModel (pushOutcomeVM (push_array c7env c7vm [1, 2, 3, 4, 5]))
      100).hea = c7vm.hea :=
  ((c8_release_amended c7env c7vm [1, 2, 3, 4, 5]).1 rfl 100
    (pushOutcomeVM (push_array c7env c7vm [1, 2, 3, 4, 5])) rfl).2.2

/-- The declared parameter kinds a generated entry point can decode: a
by-value scalar (`i32`/`u32`/`f32`/`usize`/`isize`), a by-reference
primitive (`&T`/`&mut T`, the `ref` arm of `expand_args!`), or a guest
string (`String` via `AmxValueDecode`). -/
inductive ParamKind where
  | scalar
  | refPrim
  | str
deriving DecidableEq, Repr

/-- A decoded host-side argument value: a raw scalar cell, a resolved host
address for a reference parameter, or the transcoded bytes of a guest
string. -/
inductive DecodedVal where
  | prim (v : Int)
  | addr (p : Int)
  | txt (bytes : List Int)
deriving DecidableEq, Repr

/-- The fields of the sdk crate's `RawAmx` (`src/sdk/src/types.rs`) used by
`Amx::get_address` and `Amx::data_section` (`src/sdk/src/amx.rs`): here
`hea`, `stk`, `stp` are `usize`, so there is no negative-address case. -/
structure SdkAmx where
  base : Nat
  dat : Nat
  dataPtr : Option Nat
  hea : Nat
  stk : Nat
  stp : Nat
deriving DecidableEq, Repr

/-- `Amx::data_section` from `src/sdk/src/amx.rs` (lines 229-238). -/
def sdkDataSection (s : SdkAmx) : Nat :=
  match s.dataPtr with
  | none => s.base + s.dat
  | some d => d

/-- `Amx::get_address` from `src/sdk/src/amx.rs` (lines 143-153):
`address >= hea && address < stk || address >= stp` rejects the unsigned
address with `AmxError::MemoryAccess`. -/
def sdk_get_address (s : SdkAmx) (address : Nat) : Except AmxError Nat :=
  if (address ≥ s.hea ∧ address < s.stk) ∨ address ≥ s.stp then
    Except.error AmxError.MemoryAccess
  else
    Except.ok (sdkDataSection s + address)

/-- The environment of one codegen-generated native call: the raw AMX
state, the `args` array of `usize` cells the guest supplied
(`args 0` is the total argument byte size, `args 1, args 2, …` the
arguments), host memory read as cells at 4-byte steps (`cellMem`, by byte
address), and two external oracles: `strLenRes` models the external
`StrLen` export (string length is obtained from the VM, not computed by
this layer), and `cp1251Res` models `cp1251::decode` — modelled from the
spec, since `cp1251.rs` (the fixed single-byte code-page table that fails
with an encoding error on an unmappable byte) is not among the sources. -/
structure CodegenEnv where
  amx : SdkAmx
  args : Nat → Nat
  cellMem : Nat → Int
  strLenRes : Nat → Except AmxError Nat
  cp1251Res : List Int → Except AmxError (List Int)

/-- `AmxValueDecode::decode` from `src/sdk/src/arguments.rs`: scalars are
the raw cell reinterpreted (lines 13-19), references resolve the cell as a
guest address via `Amx::get_address` (lines 27-31), and `String` resolves
the address, asks the `StrLen` export for the length, extracts
`length + 1` characters with the packed/unpacked loop of
`Amx::get_string`, and transcodes them (lines 41-49). -/
def amxValueDecode (env : CodegenEnv) (k : ParamKind) (raw : Nat) :
    Except AmxError DecodedVal :=
  match k with
  | ParamKind.scalar => Except.ok (DecodedVal.prim (Int.ofNat raw))
  | ParamKind.refPrim =>
    match sdk_get_address env.amx raw with
    | Except.error e => Except.error e
    | Except.ok p => Except.ok (DecodedVal.addr (Int.ofNat p))
  | ParamKind.str =>
    match sdk_get_address env.amx raw with
    | Except.error e => Except.error e
    | Except.ok p =>
      match env.strLenRes p with
      | Except.error e => Except.error e
      | Except.ok len =>
        match env.cp1251Res
          (get_cstring_of_length (fun i => env.cellMem (p + 4 * i)) (len + 1)) with
        | Except.error e => Except.error e
        | Except.ok bytes => Except.ok (DecodedVal.txt bytes)

/-- The observable outcome of one codegen-generated entry point
(`NativesVisitor::generate_extern_natives`, `src/codegen/src/natives.rs`
lines 35-107): the cell returned to the guest (`none` when the call
panicked and never returned), the argument-cell indices read from `args`
in order, whether a diagnostic was emitted through the log sink, and
whether the host method was invoked. -/
structure CodegenRun where
  ret : Option Int
  readIdxs : List Nat
  logged : Bool
  hostCalled : Bool
deriving DecidableEq, Repr

/-- The body of a codegen-generated entry point, one declared parameter at
a time (`src/codegen/src/natives.rs` lines 43-92): for the parameter with
1-based index `idx`, read `args.offset(idx)` and decode it with
`AmxValueDecode::decode(..).unwrap()` — an `Err` from `decode` therefore
panics (modelled as `ret = none`) with no diagnostic and no sentinel; once
every parameter is decoded the host method runs, an `Ok` value is returned
as the result cell, and an `Err` is formatted through the log sink and
turned into the sentinel 0. No arity check is generated: `args 0` is never
consulted. -/
def codegenGo (env : CodegenEnv) (host : List DecodedVal → Except AmxError Int) :
    List ParamKind → Nat → List DecodedVal → CodegenRun
  | [], _, acc =>
    match host acc.reverse with
    | Except.ok v => ⟨some v, [], false, true⟩
    | Except.error _ => ⟨some 0, [], true, true⟩
  | k :: rest, idx, acc =>
    match amxValueDecode env k (env.args idx) with
    | Except.ok v =>
      let r := codegenGo env host rest (idx + 1) (v :: acc)
      { r with readIdxs := idx :: r.readIdxs }
    | Except.error _ => ⟨none, [idx], false, false⟩

/-- A codegen-generated entry point for a native with the given declared
parameter list: argument reads start at cell index 1. -/
def codegenRun (env : CodegenEnv) (ks : List ParamKind)
    (host : List DecodedVal → Except AmxError Int) : CodegenRun :=
  codegenGo env host ks 1 []

/-- The pure decoding pipeline of a codegen entry point: the decoded values
of all declared parameters, or the first decode error. -/
def codegenDecodeAll (env : CodegenEnv) :
    List ParamKind → Nat → Except AmxError (List DecodedVal)
  | [], _ => Except.ok []
  | k :: rest, idx =>
    match amxValueDecode env k (env.args idx) with
    | Except.error e => Except.error e
    | Except.ok v =>
      match codegenDecodeAll env rest (idx + 1) with
      | Except.error e => Except.error e
      | Except.ok vs => Except.ok (v :: vs)

/-- Every argument index a codegen entry point reads lies in the window
`[idx, idx + arity)` of its declared parameters. -/
theorem codegenGo_reads_bound (env : CodegenEnv)
    (host : List DecodedVal → Except AmxError Int) :
    ∀ (ks : List ParamKind) (idx : Nat) (acc : List DecodedVal),
      ∀ k ∈ (codegenGo env host ks idx acc).readIdxs,
        idx ≤ k ∧ k < idx + ks.length := by
  intro ks
  induction ks with
  | nil =>
    intro idx acc k hk
    unfold codegenGo at hk
    cases h : host acc.reverse <;> simp [h] at hk
  | cons p rest ih =>
    intro idx acc k hk
    unfold codegenGo at hk
    cases hd : amxValueDecode env p (env.args idx) with
    | ok v =>
      rw [hd] at hk
      dsimp only at hk
      rcases List.mem_cons.mp hk with h1 | h2
      · subst h1
        simp only [List.length_cons]
        omega
      · have := ih (idx + 1) (v :: acc) k h2
        simp only [List.length_cons]
        omega
    | error e =>
      rw [hd] at hk
      dsimp only at hk
      rcases List.mem_cons.mp hk with h1 | h2
      · subst h1
        simp only [List.length_cons]
        omega
      · simp at h2

/-- When every declared parameter is a by-value scalar, a codegen entry
point reads exactly the argument cells `idx, …, idx + arity - 1` and always
reaches the host method (scalar decoding cannot fail). -/
theorem codegenGo_scalar (env : CodegenEnv)
    (host : List DecodedVal → Except AmxError Int) :
    ∀ (ks : List ParamKind) (idx : Nat) (acc : List DecodedVal),
      (∀ p ∈ ks, p = ParamKind.scalar) →
        (codegenGo env host ks idx acc).readIdxs = List.range' idx ks.length ∧
        (codegenGo env host ks idx acc).hostCalled = true := by
  intro ks
  induction ks with
  | nil =>
    intro idx acc _
    cases h : host acc.reverse <;> simp [codegenGo, h, List.range']
  | cons p rest ih =>
    intro idx acc hsc
    have hp : p = ParamKind.scalar := hsc p (List.mem_cons_self p rest)
    subst hp
    have hrest := ih (idx + 1) (DecodedVal.prim (Int.ofNat (env.args idx)) :: acc)
      (fun q hq => hsc q (List.mem_cons_of_mem _ hq))
    unfold codegenGo amxValueDecode
    dsimp only
    refine ⟨?_, hrest.2⟩
    rw [hrest.1, List.length_cons, List.range'_succ]

/-- When the whole decoding pipeline succeeds, a codegen entry point reads
all argument cells in order and hands the decoded values to the host
method; the host's `Ok` becomes the returned cell, its `Err` becomes a
logged diagnostic and the sentinel 0. -/
theorem codegenGo_decode_ok (env : CodegenEnv)
    (host : List DecodedVal → Except AmxError Int) :
    ∀ (ks : List ParamKind) (idx : Nat) (acc vs : List DecodedVal),
      codegenDecodeAll env ks idx = Except.ok vs →
        codegenGo env host ks idx acc =
          (match host (acc.reverse ++ vs) with
           | Except.ok v => ⟨some v, List.range' idx ks.length, false, true⟩
           | Except.error _ => ⟨some 0, List.range' idx ks.length, true, true⟩) := by
  intro ks
  induction ks with
  | nil =>
    intro idx acc vs hok
    unfold codegenDecodeAll at hok
    simp only [Except.ok.injEq] at hok
    subst hok
    unfold codegenGo
    cases h : host (acc.reverse ++ []) with
    | ok v => simp [List.append_nil] at h ⊢; simp [h, List.range']
    | error e => simp [List.append_nil] at h ⊢; simp [h, List.range']
  | cons p rest ih =>
    intro idx acc vs hok
    unfold codegenDecodeAll at hok
    cases hd : amxValueDecode env p (env.args idx) with
    | error e => rw [hd] at hok; exact Except.noConfusion hok
    | ok v =>
      rw [hd] at hok
      dsimp only at hok
      cases hrest : codegenDecodeAll env rest (idx + 1) with
      | error e => rw [hrest] at hok; exact Except.noConfusion hok
      | ok vs' =>
        rw [hrest] at hok
        simp only [Except.ok.injEq] at hok
        subst hok
        unfold codegenGo
        rw [hd]
        dsimp only
        rw [ih (idx + 1) (v :: acc) vs' hrest]
        have happ : (v :: acc).reverse ++ vs' = acc.reverse ++ (v :: vs') := by
          simp
        rw [happ]
        cases h : host (acc.reverse ++ (v :: vs')) <;>
          simp [List.length_cons, List.range'_succ]

/-- When some parameter fails to decode, a codegen entry point panics: it
returns no cell and emits no diagnostic. -/
theorem codegenGo_decode_error (env : CodegenEnv)
    (host : List DecodedVal → Except AmxError Int) :
    ∀ (ks : List ParamKind) (idx : Nat) (acc : List DecodedVal) (e : AmxError),
      codegenDecodeAll env ks idx = Except.error e →
        (codegenGo env host ks idx acc).ret = none ∧
        (codegenGo env host ks idx acc).logged = false := by
  intro ks
  induction ks with
  | nil =>
    intro idx acc e herr
    unfold codegenDecodeAll at herr
    exact Except.noConfusion herr
  | cons p rest ih =>
    intro idx acc e herr
    unfold codegenDecodeAll at herr
    unfold codegenGo
    cases hd : amxValueDecode env p (env.args idx) with
    | error e' => exact ⟨rfl, rfl⟩
    | ok v =>
      rw [hd] at herr
      dsimp only at herr
      cases hrest : codegenDecodeAll env rest (idx + 1) with
      | error e' =>
        exact ih (idx + 1) (v :: acc) e' hrest
      | ok vs =>
        rw [hrest] at herr
        exact Except.noConfusion herr

/-- A concrete codegen environment for a native declared with 2 scalar
parameters but invoked with an argument-count cell of `12` bytes = 3 cells:
`args 0 = 12`, `args 1 = 10`, `args 2 = 20`, `args 3 = 30`. -/
def c3env : CodegenEnv :=
  { amx := ⟨0, 0, none, 0, 10, 20⟩
    args := fun k => if k = 0 then 12 else 10 * k
    cellMem := fun _ => 0
    strLenRes := fun _ => Except.ok 0
    cp1251Res := fun bs => Except.ok bs }

/-- A host method returning 500 regardless of its arguments. -/
def c3host : List DecodedVal → Except AmxError Int := fun _ => Except.ok 500

/-- Claim C3, counterexample: a native declared with 2 scalar parameters,
invoked with an argument-count cell of 12 bytes (3 cells), does NOT fail
with an `ArityError` — no arity check exists in the generated entry point
(the error enumeration has no such variant, and `args 0` is never read):
the call decodes cells 1 and 2, invokes the host method and returns its
value 500. -/
theorem c3_counterexample :
    c3env.args 0 = 12 ∧
    codegenRun c3env [ParamKind.scalar, ParamKind.scalar] c3host =
      ⟨some 500, [1, 2], false, true⟩ := by
  refine ⟨by decide, by decide⟩

/-- Claim C3 (amended): the generated entry points perform no arity check —
the argument-count cell (index 0) is never read, a count/arity mismatch
does not fail, every argument index read lies in `1..declared arity` (so
the extra argument cell of an over-supplied call is never read), and with
scalar parameters the host method is always invoked. -/
theorem c3_no_arity_check_amended (env : CodegenEnv) (ks : List ParamKind)
    (host : List DecodedVal → Except AmxError Int) :
    0 ∉ (codegenRun env ks host).readIdxs ∧
    (∀ k ∈ (codegenRun env ks host).readIdxs, 1 ≤ k ∧ k ≤ ks.length) ∧
    ((∀ p ∈ ks, p = ParamKind.scalar) →
      (codegenRun env ks host).readIdxs = List.range' 1 ks.length ∧
      (codegenRun env ks host).hostCalled = true) := by
  refine ⟨?_, ?_, ?_⟩
  · intro h0
    have := codegenGo_reads_bound env host ks 1 [] 0 h0
    omega
  · intro k hk
    have := codegenGo_reads_bound env host ks 1 [] k hk
    omega
  · intro hsc
    exact codegenGo_scalar env host ks 1 [] hsc

/-- Witness for the amended claim C3 at the concrete over-supplied call:
exactly cells 1 and 2 are read and the host method runs. -/
theorem c3_no_arity_check_witness :
    (codegenRun c3env [ParamKind.scalar, ParamKind.scalar] c3host).readIdxs =
      List.range' 1 2 ∧
    (codegenRun c3env [ParamKind.scalar, ParamKind.scalar] c3host).hostCalled =
      true :=
  (c3_no_arity_check_amended c3env [ParamKind.scalar, ParamKind.scalar]
    c3host).2.2 (by decide)

/-- A codegen environment whose single reference argument points into the
unallocated gap: `args 1 = 5` with `hea = 0`, `stk = 10`, so the decode
fails with `AmxError::MemoryAccess`. -/
def c4env : CodegenEnv :=
  { amx := ⟨0, 0, none, 0, 10, 20⟩
    args := fun _ => 5
    cellMem := fun _ => 0
    strLenRes := fun _ => Except.ok 0
    cp1251Res := fun bs => Except.ok bs }

/-- A host method that is never reached in the C4 counterexample. -/
def c4host : List DecodedVal → Except AmxError Int := fun _ => Except.ok 1

/-- Claim C4, counterexample: a reference argument whose address falls in
the unallocated gap makes `AmxValueDecode::decode` return
`Err(MemoryAccess)`, and the generated entry point `.unwrap()`s it: the
call panics across the guest/host boundary (`ret = none`), emits no
diagnostic through the log sink, and returns no sentinel cell 0 — the
failure is not absorbed. -/
theorem c4_counterexample :
    amxValueDecode c4env ParamKind.refPrim (c4env.args 1) =
      Except.error AmxError.MemoryAccess ∧
    codegenRun c4env [ParamKind.refPrim] c4host = ⟨none, [1], false, false⟩ := by
  refine ⟨rfl, by decide⟩

/-- A codegen environment for the C4 witness: one scalar argument. -/
def c4wenv : CodegenEnv :=
  { amx := ⟨0, 0, none, 0, 10, 20⟩
    args := fun _ => 7
    cellMem := fun _ => 0
    strLenRes := fun _ => Except.ok 0
    cp1251Res := fun bs => Except.ok bs }

/-- A host method that fails with `AmxError::Bounds`. -/
def c4whost : List DecodedVal → Except AmxError Int :=
  fun _ => Except.error AmxError.Bounds

/-- Claim C4 (amended): a codegen-generated entry point absorbs failures
returned by the host method — the error is formatted and emitted through
the external log sink and the sentinel cell 0 is returned — but an error
during argument decoding (such as `MemoryAccess`) is `.unwrap()`ed and
panics across the guest/host boundary with no diagnostic and no sentinel. -/
theorem c4_error_absorption_amended (env : CodegenEnv) (ks : List ParamKind)
    (host : List DecodedVal → Except AmxError Int) :
    (∀ vs e, codegenDecodeAll env ks 1 = Except.ok vs →
      host vs = Except.error e →
      codegenRun env ks host = ⟨some 0, List.range' 1 ks.length, true, true⟩) ∧
    (∀ e, codegenDecodeAll env ks 1 = Except.error e →
      (codegenRun env ks host).ret = none ∧
      (codegenRun env ks host).logged = false) := by
  constructor
  · intro vs e hok herr
    unfold codegenRun
    rw [codegenGo_decode_ok env host ks 1 [] vs hok]
    simp [herr]
  · intro e herr
    exact codegenGo_decode_error env host ks 1 [] e herr

/-- Witness for the amended claim C4: a host method failing with `Bounds`
is absorbed — the entry point logs a diagnostic and returns the sentinel
cell 0 to the guest. -/
theorem c4_error_absorption_witness :
    codegenRun c4wenv [ParamKind.scalar] c4whost =
      ⟨some 0, List.range' 1 1, true, true⟩ :=
  (c4_error_absorption_amended c4wenv [ParamKind.scalar] c4whost).1
    [DecodedVal.prim 7] AmxError.Bounds rfl rfl

/-- The environment of one `define_native!`-generated call (src crate): the
raw AMX state used by `AMX::get_address`, the `params` cell array the guest
supplied (cell 0 is the byte count, cells 1… the arguments, walked by the
argument cursor of `crate::args` — modelled from the spec as a cursor that
yields `params[1]`, `params[2]`, … in order, since `args.rs` is not among
the sources), and the status the external raise-error export returns. -/
structure DefineNativeEnv where
  amx : AmxState
  args : Nat → Int
  raiseStatus : Int

/-- The observable outcome of one `define_native!`-generated entry point
(`src/src/macros.rs` lines 183-233): the cell returned to the guest
(`none` when the call panicked), the error codes passed to the raise-error
export (`AMX::raise_error`, `src/src/amx.rs:708-711`) in order, and whether
the host method was invoked. -/
structure DefineNativeRun where
  ret : Option Int
  raised : List Int
  hostCalled : Bool
deriving DecidableEq, Repr

/-- The error arm shared by every failure path of `define_native!`:
`amx.raise_error(err).unwrap(); return 0;` — the raise-error export is
invoked with `err as i32`; if that export itself fails, the `.unwrap()`
panics, otherwise the sentinel cell 0 is returned. -/
def raiseAndReturnZero (env : DefineNativeEnv) (e : AmxError)
    (hc : Bool) : DefineNativeRun :=
  if env.raiseStatus = 0 then ⟨some 0, [e.code], hc⟩ else ⟨none, [e.code], hc⟩

/-- The body of a `define_native!`-generated entry point, one declared
parameter at a time (`expand_args!`, `src/src/macros.rs` lines 278-369):
a by-value parameter reads the next cell directly; a `ref` parameter reads
the next cell and resolves it with `AMX::get_address`, and on `Err` raises
the error and returns 0; a `String` parameter is `unimplemented!()` — a
panic. When all parameters are decoded the host method runs; its `Ok`
becomes the returned cell and its `Err` is raised and turned into the
sentinel 0. No arity check exists here either. -/
def defineNativeGo (env : DefineNativeEnv)
    (host : List DecodedVal → Except AmxError Int) :
    List ParamKind → Nat → List DecodedVal → DefineNativeRun
  | [], _, acc =>
    match host acc.reverse with
    | Except.ok v => ⟨some v, [], true⟩
    | Except.error e => raiseAndReturnZero env e true
  | ParamKind.scalar :: rest, idx, acc =>
    defineNativeGo env host rest (idx + 1) (DecodedVal.prim (env.args idx) :: acc)
  | ParamKind.refPrim :: rest, idx, acc =>
    match get_address env.amx (env.args idx) with
    | Except.ok p => defineNativeGo env host rest (idx + 1) (DecodedVal.addr p :: acc)
    | Except.error e => raiseAndReturnZero env e false
  | ParamKind.str :: _, _, _ => ⟨none, [], false⟩

/-- A `define_native!`-generated entry point: the argument cursor starts at
cell index 1. -/
def defineNativeRun (env : DefineNativeEnv) (ks : List ParamKind)
    (host : List DecodedVal → Except AmxError Int) : DefineNativeRun :=
  defineNativeGo env host ks 1 []

/-- The pure decoding pipeline of a `define_native!` entry point: the
decoded values of all declared parameters, or the first decode error.
The `String` arm of `expand_args!` is `unimplemented!()` (a panic, which
has no `Except` representation), so this pipeline is only meaningful for
parameter lists without `ParamKind.str`; the arm's value here is an
arbitrary placeholder, excluded by hypothesis in every theorem using it. -/
def defineNativeDecodeAll (env : DefineNativeEnv) :
    List ParamKind → Nat → Except AmxError (List DecodedVal)
  | [], _ => Except.ok []
  | ParamKind.scalar :: rest, idx =>
    match defineNativeDecodeAll env rest (idx + 1) with
    | Except.error e => Except.error e
    | Except.ok vs => Except.ok (DecodedVal.prim (env.args idx) :: vs)
  | ParamKind.refPrim :: rest, idx =>
    match get_address env.amx (env.args idx) with
    | Except.error e => Except.error e
    | Except.ok p =>
      match defineNativeDecodeAll env rest (idx + 1) with
      | Except.error e => Except.error e
      | Except.ok vs => Except.ok (DecodedVal.addr p :: vs)
  | ParamKind.str :: _, _ => Except.error AmxError.Unknown

/-- When the whole decoding pipeline of a `define_native!` entry point
succeeds (no `String` parameter declared), the host method receives the
decoded values; its `Ok` becomes the returned cell and its `Err` goes
through `raiseAndReturnZero`. -/
theorem defineNativeGo_decode_ok (env : DefineNativeEnv)
    (host : List DecodedVal → Except AmxError Int) :
    ∀ (ks : List ParamKind) (idx : Nat) (acc vs : List DecodedVal),
      ParamKind.str ∉ ks →
      defineNativeDecodeAll env ks idx = Except.ok vs →
        defineNativeGo env host ks idx acc =
          (match host (acc.reverse ++ vs) with
           | Except.ok v => ⟨some v, [], true⟩
           | Except.error e => raiseAndReturnZero env e true) := by
  intro ks
  induction ks with
  | nil =>
    intro idx acc vs _ hok
    unfold defineNativeDecodeAll at hok
    simp only [Except.ok.injEq] at hok
    subst hok
    unfold defineNativeGo
    rw [List.append_nil]
  | cons p rest ih =>
    intro idx acc vs hstr hok
    have hstr' : ParamKind.str ∉ rest := fun h => hstr (List.mem_cons_of_mem _ h)
    cases p with
    | scalar =>
      unfold defineNativeDecodeAll at hok
      cases hrest : defineNativeDecodeAll env rest (idx + 1) with
      | error e => rw [hrest] at hok; exact Except.noConfusion hok
      | ok vs' =>
        rw [hrest] at hok
        simp only [Except.ok.injEq] at hok
        subst hok
        unfold defineNativeGo
        rw [ih (idx + 1) (DecodedVal.prim (env.args idx) :: acc) vs' hstr' hrest]
        have happ : (DecodedVal.prim (env.args idx) :: acc).reverse ++ vs' =
            acc.reverse ++ (DecodedVal.prim (env.args idx) :: vs') := by
          simp
        rw [happ]
    | refPrim =>
      unfold defineNativeDecodeAll at hok
      cases haddr : get_address env.amx (env.args idx) with
      | error e => rw [haddr] at hok; exact Except.noConfusion hok
      | ok p =>
        rw [haddr] at hok
        dsimp only at hok
        cases hrest : defineNativeDecodeAll env rest (idx + 1) with
        | error e => rw [hrest] at hok; exact Except.noConfusion hok
        | ok vs' =>
          rw [hrest] at hok
          simp only [Except.ok.injEq] at hok
          subst hok
          unfold defineNativeGo
          rw [haddr]
          dsimp only
          rw [ih (idx + 1) (DecodedVal.addr p :: acc) vs' hstr' hrest]
          have happ : (DecodedVal.addr p :: acc).reverse ++ vs' =
              acc.reverse ++ (DecodedVal.addr p :: vs') := by
            simp
          rw [happ]
    | str => exact absurd (List.mem_cons_self _ _) hstr

/-- When a reference-argument decode fails in a `define_native!` entry
point (no `String` parameter declared), the entry point goes through
`raiseAndReturnZero` with that error, without calling the host method. -/
theorem defineNativeGo_decode_error (env : DefineNativeEnv)
    (host : List DecodedVal → Except AmxError Int) :
    ∀ (ks : List ParamKind) (idx : Nat) (acc : List DecodedVal) (e : AmxError),
      ParamKind.str ∉ ks →
      defineNativeDecodeAll env ks idx = Except.error e →
        defineNativeGo env host ks idx acc = raiseAndReturnZero env e false := by
  intro ks
  induction ks with
  | nil =>
    intro idx acc e _ herr
    unfold defineNativeDecodeAll at herr
    exact Except.noConfusion herr
  | cons p rest ih =>
    intro idx acc e hstr herr
    have hstr' : ParamKind.str ∉ rest := fun h => hstr (List.mem_cons_of_mem _ h)
    cases p with
    | scalar =>
      unfold defineNativeDecodeAll at herr
      cases hrest : defineNativeDecodeAll env rest (idx + 1) with
      | error e' =>
        rw [hrest] at herr
        simp only [Except.error.injEq] at herr
        subst herr
        unfold defineNativeGo
        exact ih (idx + 1) _ e' hstr' hrest
      | ok vs =>
        rw [hrest] at herr
        exact Except.noConfusion herr
    | refPrim =>
      unfold defineNativeDecodeAll at herr
      cases haddr : get_address env.amx (env.args idx) with
      | error e' =>
        rw [haddr] at herr
        simp only [Except.error.injEq] at herr
        subst herr
        unfold defineNativeGo
        rw [haddr]
      | ok p =>
        rw [haddr] at herr
        dsimp only at herr
        cases hrest : defineNativeDecodeAll env rest (idx + 1) with
        | error e' =>
          rw [hrest] at herr
          simp only [Except.error.injEq] at herr
          subst herr
          unfold defineNativeGo
          rw [haddr]
          dsimp only
          exact ih (idx + 1) _ e' hstr' hrest
        | ok vs =>
          rw [hrest] at herr
          exact Except.noConfusion herr
    | str => exact absurd (List.mem_cons_self _ _) hstr

/-- Claim C10: in every `define_native!`-generated entry point (with the
raise-error export succeeding and no `String` parameter, whose macro arm is
unimplemented), when the host method or a reference-argument decode returns
an error, the entry point invokes the raise-error export exactly once with
that error's code and then returns cell 0 to the guest — a failing native
does surface the fault to the guest error state. -/
theorem c10_raise_error_once (env : DefineNativeEnv) (ks : List ParamKind)
    (host : List DecodedVal → Except AmxError Int)
    (hraise : env.raiseStatus = 0) (hstr : ParamKind.str ∉ ks) :
    (∀ vs e, defineNativeDecodeAll env ks 1 = Except.ok vs →
      host vs = Except.error e →
      defineNativeRun env ks host = ⟨some 0, [e.code], true⟩) ∧
    (∀ e, defineNativeDecodeAll env ks 1 = Except.error e →
      defineNativeRun env ks host = ⟨some 0, [e.code], false⟩) := by
  constructor
  · intro vs e hok herr
    unfold defineNativeRun
    rw [defineNativeGo_decode_ok env host ks 1 [] vs hstr hok]
    simp only [List.reverse_nil, List.nil_append, herr]
    unfold raiseAndReturnZero
    rw [if_pos hraise]
  · intro e herr
    unfold defineNativeRun
    rw [defineNativeGo_decode_error env host ks 1 [] e hstr herr]
    unfold raiseAndReturnZero
    rw [if_pos hraise]

/-- A concrete `define_native!` environment: one reference parameter whose
cell 5 falls in the unallocated gap of `hea = 0`, `stk = 10`, `stp = 20`,
with a succeeding raise-error export. -/
def c10env : DefineNativeEnv :=
  { amx := ⟨0, 0, none, 0, 10, 20⟩
    args := fun _ => 5
    raiseStatus := 0 }

/-- A host method that is never reached in the C10 witness. -/
def c10host : List DecodedVal → Except AmxError Int := fun _ => Except.ok 1

/-- Witness for claim C10: the failing reference decode raises exactly one
error — `MemoryAccess`, code 5 — and the entry point returns cell 0. -/
theorem c10_raise_error_once_witness :
    defineNativeRun c10env [ParamKind.refPrim] c10host =
      ⟨some 0, [AmxError.MemoryAccess.code], false⟩ ∧
    AmxError.MemoryAccess.code = 5 := by
  have h := (c10_raise_error_once c10env [ParamKind.refPrim] c10host rfl
    (by decide)).2 AmxError.MemoryAccess rfl
  exact ⟨h, by decide⟩

end SampSdk
